import Mathlib

/-!
Verification of docker-platformify (src/main.go) against its specification.

The program is a byte-level intercepting proxy for the Docker API socket.
We shallowly embed the client-to-upstream relay loop of handleConnection
(src/main.go:158-225), the request-line rewriter injectPlatform
(src/main.go:97-127), the write loops of sendAll (src/main.go:129-139) and
forwardAll (src/main.go:68-74), and the slice of Go 1.14's net/url package
that injectPlatform calls (url.Parse, url.ParseQuery, Values.Del/Add/Encode,
URL.String).  The Dockerfile pins golang:1.14, so the net/url model follows
the Go 1.14 sources (in particular ParseQuery splits on both '&' and ';').

Go []byte and Go string are both byte sequences; both are modelled as
`List Nat` (named `Bytes`).  In the real program every element is < 256;
the definitions are total over Nat and the theorems hold for all Nat.
-/

/-- Byte strings: Go []byte and Go string are both byte sequences. -/
abbrev Bytes := List Nat

/-- Helper to write concrete ASCII byte strings. -/
def bytesOf (s : String) : Bytes := s.toList.map Char.toNat

/-- Go bytes.HasPrefix / strings.HasPrefix. -/
def bStartsWith : Bytes → Bytes → Bool
  | _, [] => true
  | [], _ :: _ => false
  | c :: s, p :: ps => c == p && bStartsWith s ps

/-- Go strings.HasSuffix (via prefix of the reversed lists). -/
def bEndsWith (s suff : Bytes) : Bool := bStartsWith s.reverse suff.reverse

/-- Go bytes.Index / strings.Index: first index of sublist `sub` in `s`, `none` for -1. -/
def bIndex : Bytes → Bytes → Option Nat
  | s, sub =>
    match s with
    | [] => if sub == [] then some 0 else none
    | _ :: rest => if bStartsWith s sub then some 0 else (bIndex rest sub).map (· + 1)

/-- Go bytes.Contains / strings.Contains. -/
def bContains (s sub : Bytes) : Bool := (bIndex s sub).isSome

/-- Go strings.LastIndex: last index of sublist `sub` in `s`. -/
def bLastIndex (s sub : Bytes) : Option Nat :=
  (List.range (s.length + 1)).reverse.find? fun i => bStartsWith (s.drop i) sub

/-- Go strings.IndexAny restricted to a set of single bytes. -/
def bIndexAny (s : Bytes) (chars : List Nat) : Option Nat :=
  s.findIdx? fun c => chars.contains c

/-- Go net/url's internal split(s, sep, cutc): split at the first occurrence of sep. -/
def bSplit (s : Bytes) (sep : Nat) (cutc : Bool) : Bytes × Bytes :=
  match bIndex s [sep] with
  | none => (s, [])
  | some i => if cutc then (s.take i, s.drop (i + 1)) else (s.take i, s.drop i)

/-- Go bytes.SplitN(s, [sep], n) for a single-byte separator (genSplit). -/
def goSplitN (b : Bytes) (sep : Nat) (n : Nat) : List Bytes :=
  match n with
  | 0 => []
  | 1 => [b]
  | m + 2 =>
    match bIndex b [sep] with
    | none => [b]
    | some i => b.take i :: goSplitN (b.drop (i + 1)) sep (m + 1)

/-- Go bytes.Join with a separator. -/
def bJoin (ls : List Bytes) (sep : Bytes) : Bytes := sep.intercalate ls

/-- The encoding modes of Go net/url's escape/unescape. -/
inductive Encoding where
  | path
  | pathSegment
  | host
  | zone
  | userPassword
  | queryComponent
  | fragment
  deriving DecidableEq, Repr

/-- ASCII letter or digit (Go net/url shouldEscape first clause). -/
def isAlphaNum (c : Nat) : Bool :=
  (97 ≤ c && c ≤ 122) || (65 ≤ c && c ≤ 90) || (48 ≤ c && c ≤ 57)

/-- The sub-delims and extra bytes that Go net/url leaves unescaped in host names. -/
def isHostExtra (c : Nat) : Bool :=
  c == 33 || c == 36 || c == 38 || c == 39 || c == 40 || c == 41 || c == 42 ||
  c == 43 || c == 44 || c == 59 || c == 61 || c == 58 || c == 91 || c == 93 ||
  c == 60 || c == 62 || c == 34

/-- Go 1.14 net/url shouldEscape(c, mode). -/
def shouldEscape (c : Nat) (mode : Encoding) : Bool :=
  if isAlphaNum c then false
  else if (mode == Encoding.host || mode == Encoding.zone) && isHostExtra c then false
  else if c == 45 || c == 95 || c == 46 || c == 126 then false
  else if c == 36 || c == 38 || c == 43 || c == 44 || c == 47 || c == 58 ||
          c == 59 || c == 61 || c == 63 || c == 64 then
    match mode with
    | Encoding.path => c == 63
    | Encoding.pathSegment => c == 47 || c == 59 || c == 44 || c == 63
    | Encoding.userPassword => c == 64 || c == 47 || c == 63 || c == 58
    | Encoding.queryComponent => true
    | Encoding.fragment => false
    | _ => true
  else if mode == Encoding.fragment && (c == 33 || c == 40 || c == 41 || c == 42) then
    false
  else true

/-- Upper-case hex digit byte of a nibble ("0123456789ABCDEF"). -/
def hexUpper (n : Nat) : Nat := if n < 10 then 48 + n else 55 + n

/-- Go 1.14 net/url escape(s, mode): percent-encode, with space to '+' in query mode. -/
def escape (s : Bytes) (mode : Encoding) : Bytes :=
  s.flatMap fun c =>
    if c == 32 && mode == Encoding.queryComponent then [43]
    else if shouldEscape c mode then [37, hexUpper (c / 16), hexUpper (c % 16)]
    else [c]

/-- Go net/url ishex. -/
def isHexDigit (c : Nat) : Bool :=
  (48 ≤ c && c ≤ 57) || (97 ≤ c && c ≤ 102) || (65 ≤ c && c ≤ 70)

/-- Go net/url unhex. -/
def unhex (c : Nat) : Nat :=
  if 48 ≤ c && c ≤ 57 then c - 48
  else if 97 ≤ c && c ≤ 102 then c - 97 + 10
  else if 65 ≤ c && c ≤ 70 then c - 65 + 10
  else 0

/-- Go 1.14 net/url unescape(s, mode); `none` models the error returns
(invalid percent escape, invalid host byte, invalid zone escape). -/
def unescape : Bytes → Encoding → Option Bytes
  | [], _ => some []
  | 37 :: h1 :: h2 :: rest, mode =>
    if isHexDigit h1 && isHexDigit h2 then
      if mode == Encoding.host && unhex h1 < 8 && !(h1 == 50 && h2 == 53) then none
      else if mode == Encoding.zone &&
          (!(h1 == 50 && h2 == 53) && unhex h1 * 16 + unhex h2 != 32 &&
            shouldEscape (unhex h1 * 16 + unhex h2) Encoding.host) then none
      else (unescape rest mode).map fun t => (unhex h1 * 16 + unhex h2) :: t
    else none
  | 37 :: _, _ => none
  | 43 :: rest, mode =>
    (unescape rest mode).map fun t =>
      (if mode == Encoding.queryComponent then 32 else 43) :: t
  | c :: rest, mode =>
    if (mode == Encoding.host || mode == Encoding.zone) && c < 128 &&
        shouldEscape c mode then none
    else (unescape rest mode).map fun t => c :: t

/-- Go net/url Userinfo. -/
structure Userinfo where
  username : Bytes
  password : Bytes
  passwordSet : Bool
  deriving DecidableEq, Repr

/-- Go net/url URL (the fields used by this program; Opaque is named opq). -/
structure GoURL where
  scheme : Bytes
  opq : Bytes
  user : Option Userinfo
  host : Bytes
  path : Bytes
  rawPath : Bytes
  forceQuery : Bool
  rawQuery : Bytes
  fragment : Bytes
  deriving DecidableEq, Repr

/-- The zero URL value. -/
def emptyURL : GoURL :=
  { scheme := [], opq := [], user := none, host := [], path := [], rawPath := [],
    forceQuery := false, rawQuery := [], fragment := [] }

/-- Go net/url stringContainsCTLByte. -/
def containsCTLByte (s : Bytes) : Bool := s.any fun c => c < 32 || c == 127

/-- ASCII lower-casing, as Go strings.ToLower acts on scheme names. -/
def asciiToLower (s : Bytes) : Bytes :=
  s.map fun c => if 65 ≤ c && c ≤ 90 then c + 32 else c

/-- Go net/url getscheme, recursing over the remaining bytes with position i.
Returns none on error, otherwise (scheme, rest). -/
def getschemeAux (orig : Bytes) : Bytes → Nat → Option (Bytes × Bytes)
  | [], _ => some ([], orig)
  | c :: rest, i =>
    if (97 ≤ c && c ≤ 122) || (65 ≤ c && c ≤ 90) then getschemeAux orig rest (i + 1)
    else if (48 ≤ c && c ≤ 57) || c == 43 || c == 45 || c == 46 then
      if i == 0 then some ([], orig) else getschemeAux orig rest (i + 1)
    else if c == 58 then
      if i == 0 then none else some (orig.take i, orig.drop (i + 1))
    else some ([], orig)

/-- Go net/url getscheme(rawurl). -/
def getscheme (raw : Bytes) : Option (Bytes × Bytes) := getschemeAux raw raw 0

/-- Go net/url validOptionalPort. -/
def validOptionalPort (port : Bytes) : Bool :=
  match port with
  | [] => true
  | c :: rest => c == 58 && rest.all fun b => 48 ≤ b && b ≤ 57

/-- Go net/url validUserinfo. -/
def validUserinfo (s : Bytes) : Bool :=
  s.all fun c =>
    isAlphaNum c || c == 45 || c == 46 || c == 95 || c == 58 || c == 126 ||
    c == 33 || c == 36 || c == 38 || c == 39 || c == 40 || c == 41 ||
    c == 42 || c == 43 || c == 44 || c == 59 || c == 61 || c == 37 || c == 64

/-- Go net/url validEncoded(s, encodePath): may s appear in a URL path unchanged. -/
def validEncodedPath (s : Bytes) : Bool :=
  s.all fun c =>
    c == 33 || c == 36 || c == 38 || c == 39 || c == 40 || c == 41 || c == 42 ||
    c == 43 || c == 44 || c == 59 || c == 61 || c == 58 || c == 64 ||
    c == 91 || c == 93 || c == 37 || !shouldEscape c Encoding.path

/-- Go net/url parseHost. -/
def parseHost (host : Bytes) : Option Bytes :=
  if bStartsWith host [91] then
    match bLastIndex host [93] with
    | none => none
    | some i =>
      if !validOptionalPort (host.drop (i + 1)) then none
      else
        match bIndex (host.take i) (bytesOf "%25") with
        | some zone =>
          match unescape (host.take zone) Encoding.host,
                unescape ((host.take i).drop zone) Encoding.zone,
                unescape (host.drop i) Encoding.host with
          | some h1, some h2, some h3 => some (h1 ++ h2 ++ h3)
          | _, _, _ => none
        | none => unescape host Encoding.host
  else
    match bLastIndex host [58] with
    | some i =>
      if !validOptionalPort (host.drop i) then none
      else unescape host Encoding.host
    | none => unescape host Encoding.host

/-- Go net/url parseAuthority: returns (user, host) or an error. -/
def parseAuthority (authority : Bytes) : Option (Option Userinfo × Bytes) :=
  match bLastIndex authority [64] with
  | none => (parseHost authority).map fun h => (none, h)
  | some i =>
    match parseHost (authority.drop (i + 1)) with
    | none => none
    | some host =>
      let userinfo := authority.take i
      if !validUserinfo userinfo then none
      else if !bContains userinfo [58] then
        (unescape userinfo Encoding.userPassword).map fun un =>
          (some { username := un, password := [], passwordSet := false }, host)
      else
        let p := bSplit userinfo 58 true
        match unescape p.1 Encoding.userPassword, unescape p.2 Encoding.userPassword with
        | some un, some pw =>
          some (some { username := un, password := pw, passwordSet := true }, host)
        | _, _ => none

/-- Go net/url URL.setPath: store the decoded path, keeping RawPath only if needed. -/
def setPath (u : GoURL) (p : Bytes) : Option GoURL :=
  match unescape p Encoding.path with
  | none => none
  | some path =>
    some { u with path := path,
                  rawPath := if escape path Encoding.path == p then [] else p }

/-- Go net/url parse(rawurl, viaRequest=false): everything of Parse except the fragment. -/
def parseRaw (rawurl : Bytes) : Option GoURL :=
  if containsCTLByte rawurl then none
  else if rawurl == [42] then some { emptyURL with path := [42] }
  else
    match getscheme rawurl with
    | none => none
    | some (schemeRaw, rest0) =>
      let scheme := asciiToLower schemeRaw
      let step :=
        if bEndsWith rest0 [63] && !bContains rest0.dropLast [63] then
          (rest0.dropLast, true, ([] : Bytes))
        else
          let p := bSplit rest0 63 true
          (p.1, false, p.2)
      let rest1 := step.1
      let forceQuery := step.2.1
      let rawQuery := step.2.2
      if !bStartsWith rest1 [47] && scheme != [] then
        some { emptyURL with scheme := scheme, opq := rest1,
                             forceQuery := forceQuery, rawQuery := rawQuery }
      else if !bStartsWith rest1 [47] && scheme == [] &&
          (match bIndex rest1 [58], bIndex rest1 [47] with
           | some colon, some slash => colon < slash
           | some _, none => true
           | none, _ => false) then
        none
      else
        let hasAuthority :=
          (scheme != [] || !bStartsWith rest1 (bytesOf "///")) &&
            bStartsWith rest1 (bytesOf "//")
        let authSplit :=
          if hasAuthority then bSplit (rest1.drop 2) 47 false else ([], rest1)
        let base := { emptyURL with scheme := scheme, forceQuery := forceQuery,
                                    rawQuery := rawQuery }
        if hasAuthority then
          match parseAuthority authSplit.1 with
          | none => none
          | some (user, host) =>
            setPath { base with user := user, host := host } authSplit.2
        else
          setPath base authSplit.2

/-- Go 1.14 net/url Parse(rawurl): strip the fragment, parse, decode the fragment. -/
def urlParse (rawurl : Bytes) : Option GoURL :=
  let p := bSplit rawurl 35 true
  match parseRaw p.1 with
  | none => none
  | some url =>
    if p.2 == [] then some url
    else
      match unescape p.2 Encoding.fragment with
      | none => none
      | some f => some { url with fragment := f }

/-- Go net/url Userinfo.String. -/
def userinfoString (ui : Userinfo) : Bytes :=
  escape ui.username Encoding.userPassword ++
    (if ui.passwordSet then 58 :: escape ui.password Encoding.userPassword else [])

/-- Go net/url URL.EscapedPath. -/
def escapedPath (u : GoURL) : Bytes :=
  if u.rawPath != [] && validEncodedPath u.rawPath &&
      unescape u.rawPath Encoding.path == some u.path then u.rawPath
  else if u.path == [42] then [42]
  else escape u.path Encoding.path

/-- Go net/url URL.String. -/
def urlString (u : GoURL) : Bytes :=
  let buf0 := if u.scheme != [] then u.scheme ++ [58] else []
  let buf1 :=
    if u.opq != [] then buf0 ++ u.opq
    else
      let b0 :=
        if u.scheme != [] || u.host != [] || u.user.isSome then
          (if u.host != [] || u.path != [] || u.user.isSome then buf0 ++ [47, 47]
           else buf0) ++
          (match u.user with
           | some ui => userinfoString ui ++ [64]
           | none => []) ++
          (if u.host != [] then escape u.host Encoding.host else [])
        else buf0
      let path := escapedPath u
      let b1 := if path != [] && !bStartsWith path [47] && u.host != [] then
                  b0 ++ [47]
                else b0
      let b2 :=
        if b1 == [] &&
            (match bIndex path [58] with
             | some i => !bContains (path.take i) [47]
             | none => false) then
          b1 ++ [46, 47]
        else b1
      b2 ++ path
  let buf2 := if u.forceQuery || u.rawQuery != [] then buf1 ++ 63 :: u.rawQuery else buf1
  if u.fragment != [] then buf2 ++ 35 :: escape u.fragment Encoding.fragment else buf2

/-- Go net/url Values: a map from keys to slices of values, as an association
list with unique keys (Go map iteration order is irrelevant because Encode
sorts the keys). -/
abbrev Values := List (Bytes × List Bytes)

/-- Membership test: Go's `_, ok := query[key]`. -/
def valuesHas (m : Values) (k : Bytes) : Bool := m.any fun e => e.1 == k

/-- Go Values.Del(key): delete(v, key). -/
def valuesDel (m : Values) (k : Bytes) : Values := m.filter fun e => e.1 != k

/-- Go Values.Add(key, value): v[key] = append(v[key], value). -/
def valuesAppend (m : Values) (k : Bytes) (v : Bytes) : Values :=
  match m with
  | [] => [(k, [v])]
  | e :: rest => if e.1 == k then (e.1, e.2 ++ [v]) :: rest else e :: valuesAppend rest k v

/-- Lookup: Go map indexing v[key] (nil slice when absent). -/
def valuesGet (m : Values) (k : Bytes) : List Bytes :=
  match m.find? fun e => e.1 == k with
  | some e => e.2
  | none => []

/-- Go net/url QueryEscape. -/
def queryEscape (s : Bytes) : Bytes := escape s Encoding.queryComponent

/-- Go net/url QueryUnescape. -/
def queryUnescape (s : Bytes) : Option Bytes := unescape s Encoding.queryComponent

/-- One iteration of Go 1.14 parseQuery on the component `kv` between
separators: split at the first '=', unescape both sides, record the pair.
The Bool reports whether this component produced an unescape error. -/
def parseQueryStep (m : Values) (kv : Bytes) : Values × Bool :=
  if kv == [] then (m, false)
  else
    let p :=
      match bIndex kv [61] with
      | some i => (kv.take i, kv.drop (i + 1))
      | none => (kv, ([] : Bytes))
    match queryUnescape p.1 with
    | none => (m, true)
    | some k =>
      match queryUnescape p.2 with
      | none => (m, true)
      | some v => (valuesAppend m k v, false)

/-- Go 1.14 parseQuery loop, run over the already-separated components: the
loop repeatedly cuts the query at the first '&' or ';', which is exactly a
split on those bytes; on an unescape error the component is skipped, the
error is remembered and parsing continues. -/
def parseQueryAux (m : Values) (errFlag : Bool) : List Bytes → Values × Bool
  | [] => (m, errFlag)
  | kv :: rest =>
    let s := parseQueryStep m kv
    parseQueryAux s.1 (errFlag || s.2) rest

/-- Go 1.14 net/url ParseQuery: the Bool is true when some component failed
to unescape (the caller injectPlatform then fails open).  An empty query
yields no components; splitOnP of a nonempty query yields exactly the
components the Go loop cuts off one by one (an all-empty tail component
included, which parseQueryStep skips like the loop's `continue`). -/
def parseQueryFull (query : Bytes) : Values × Bool :=
  if query == [] then ([], false)
  else parseQueryAux [] false (List.splitOnP (fun c => c == 38 || c == 59) query)

/-- Strict bytewise lexicographic order, as Go sort.Strings compares strings. -/
def lexLt : Bytes → Bytes → Bool
  | [], [] => false
  | [], _ :: _ => true
  | _ :: _, [] => false
  | a :: as, b :: bs => if a < b then true else if b < a then false else lexLt as bs

/-- Insert a key into a sorted key list (insertion sort step). -/
def insortKey (k : Bytes) : List Bytes → List Bytes
  | [] => [k]
  | x :: xs => if lexLt k x then k :: x :: xs else x :: insortKey k xs

/-- Sort keys bytewise ascending, as Go Values.Encode sorts map keys. -/
def sortKeys (ks : List Bytes) : List Bytes := ks.foldr insortKey []

/-- The key=value components Go Values.Encode emits: keys in sorted order,
each value of a key as QueryEscape(k)=QueryEscape(v). -/
def encodePieces (m : Values) : List Bytes :=
  (sortKeys (m.map fun e => e.1)).flatMap fun k =>
    (valuesGet m k).map fun v => queryEscape k ++ 61 :: queryEscape v

/-- Go Values.Encode: the components joined by '&'. -/
def valuesEncode (m : Values) : Bytes := [38].intercalate (encodePieces m)

/-- The bytes of the "platform" query key. -/
def platformKey : Bytes := bytesOf "platform"

/-- injectPlatform (src/main.go:97-127): split the request line into three
space-separated parts, parse the target URL and its query, replace any
existing platform parameter by the configured one, re-encode, rebuild the
line. `none` models every error return (the caller then forwards the
original bytes). -/
def injectPlatform (buffer : Bytes) (platform : Bytes) : Option Bytes :=
  match goSplitN buffer 32 3 with
  | [method, rawUrl, version] =>
    match urlParse rawUrl with
    | none => none
    | some u =>
      match parseQueryFull u.rawQuery with
      | (_, true) => none
      | (query0, false) =>
        let query1 := if valuesHas query0 platformKey then valuesDel query0 platformKey
                      else query0
        let query2 := valuesAppend query1 platformKey platform
        let u2 := { u with rawQuery := valuesEncode query2 }
        some (bJoin [method, urlString u2, version] [32])
  | _ => none

/-- The method token scanned for by handleConnection. -/
def postTok : Bytes := bytesOf "POST"

/-- The path marker scanned for by handleConnection. -/
def createTok : Bytes := bytesOf "/images/create"

/-- What one cycle of the client-to-upstream relay does to the current scan
window (handleConnection, src/main.go:180-220): the bytes handed to sendAll
and the dirty bytes retained for the next cycle.  bytes.Index(buffer, "POST")
in the code searches the whole backing array, but any occurrence straddling
the window end starts after every occurrence that lies inside the window, so
its result equals the first occurrence inside the window. -/
structure CycleOut where
  forward : Bytes
  leftover : Bytes
  deriving DecidableEq, Repr

/-- One relay cycle on scan window `w` (src/main.go:180-220). -/
def cycle (w : Bytes) (platform : Bytes) : CycleOut :=
  if bContains w postTok && bContains w createTok then
    match bIndex w postTok with
    | some 0 =>
      match bIndex w [10] with
      | none => { forward := w, leftover := [] }
      | some j =>
        match injectPlatform (w.take j) platform with
        | some inj => { forward := inj, leftover := w.drop j }
        | none => { forward := w, leftover := [] }
    | some i => { forward := w.take i, leftover := w.drop i }
    | none => { forward := w, leftover := [] }
  else { forward := w, leftover := [] }

/-- Run the relay loop over a sequence of reads starting from the given dirty
bytes: returns the concatenation of all forwarded chunks and the final dirty
bytes (src/main.go:158-225; each read is prefixed by the leftover of the
previous cycle, as the code reads into buffer[dirtyBytes:]). -/
def relaySteps (platform : Bytes) : List Bytes → Bytes → Bytes × Bytes
  | [], dirty => ([], dirty)
  | r :: rs, dirty =>
    let c := cycle (dirty ++ r) platform
    let rest := relaySteps platform rs c.leftover
    (c.forward ++ rest.1, rest.2)

/-- All bytes the client-to-upstream relay hands to sendAll over a whole
connection: the reads in order, then the final cycle that the terminating
read (EOF, bytesRead = dirtyBytes) performs on the remaining dirty bytes. -/
def relayOut (reads : List Bytes) (platform : Bytes) : Bytes :=
  let s := relaySteps platform reads []
  s.1 ++ (cycle s.2 platform).forward

/-- The scan windows arising while the relay processes `reads` from the given
dirty bytes; the last element is the window of the terminating read. -/
def relayWindowsAux (platform : Bytes) : List Bytes → Bytes → List Bytes
  | [], dirty => [dirty]
  | r :: rs, dirty =>
    (dirty ++ r) :: relayWindowsAux platform rs (cycle (dirty ++ r) platform).leftover

/-- The scan windows of a whole connection. -/
def relayWindows (reads : List Bytes) (platform : Bytes) : List Bytes :=
  relayWindowsAux platform reads []

/-- The write loop shared by sendAll (src/main.go:129-139) and forwardAll
(src/main.go:68-74): `accept k` is how many bytes of the passed slice the
k-th Write call accepts (error-free partial writes).  Returns the bytes that
actually reach the connection.  The loop keeps passing the WHOLE buffer and
only decrements the outstanding count, so partial acceptance re-sends the
front of the buffer.  toWrite is an int in Go and can go negative; fuel makes
the model total (the loop body runs at most `fuel` times). -/
def writeLoop (accept : Nat → Nat) (buffer : Bytes) : Nat → Nat → Int → Bytes
  | 0, _, _ => []
  | fuel + 1, k, toWrite =>
    if toWrite ≤ 0 then []
    else
      let n := min (accept k) buffer.length
      buffer.take n ++ writeLoop accept buffer fuel (k + 1) (toWrite - (n : Int))

/-- The byte stream a full sendAll(buffer) call puts on the wire. -/
def writeStream (accept : Nat → Nat) (buffer : Bytes) (fuel : Nat) : Bytes :=
  writeLoop accept buffer fuel 0 (buffer.length : Int)

/-- The externally visible actions of handleConnection (src/main.go:141-239). -/
inductive SessionEvent where
  | dialUpstream
  | logError
  | closeClient
  | closeUpstream
  | spawnUpstreamRelay
  | runClientRelay
  deriving DecidableEq, Repr

/-- The action trace of handleConnection as a function of whether the
net.Dial of the docker socket succeeds (src/main.go:141-239): on dial
failure the function logs and returns at once; on success it spawns the
upstream-to-client relay, runs the rewriting relay loop, and finally closes
the upstream connection. -/
def handleConnectionEvents (dialOk : Bool) : List SessionEvent :=
  if !dialOk then [SessionEvent.dialUpstream, SessionEvent.logError]
  else [SessionEvent.dialUpstream, SessionEvent.spawnUpstreamRelay,
        SessionEvent.runClientRelay, SessionEvent.closeUpstream]

/-- A scan window whose bytes lack one of the two markers passes through one
relay cycle unchanged, with nothing retained (the else branch of
src/main.go:182). -/
theorem cycle_no_marker (w p : Bytes)
    (h : (bContains w postTok && bContains w createTok) = false) :
    cycle w p = { forward := w, leftover := [] } := by
  simp [cycle, h]

/-- C5: rewriting the request line "POST /v1.40/images/create?fromImage=x
HTTP/1.1\r\n" with configured platform "linux/arm64" puts exactly the line
"POST /v1.40/images/create?fromImage=x&platform=linux%2Farm64 HTTP/1.1\r\n"
on the forwarded stream: fromImage is preserved, exactly one platform key is
added, the slash is percent-encoded, and the keys appear in this
deterministic order. -/
theorem claim5_concrete_rewrite :
    relayOut [bytesOf "POST /v1.40/images/create?fromImage=x HTTP/1.1\r\n"]
        (bytesOf "linux/arm64") =
      bytesOf "POST /v1.40/images/create?fromImage=x&platform=linux%2Farm64 HTTP/1.1\r\n" := by
  decide

/-- C2 counterexample: the same input delivered as "PO" then
"ST /v1.40/images/create?fromImage=x HTTP/1.1\r\n" is forwarded differently
from the single-read delivery, so the relay is not fragmentation-invariant. -/
theorem claim2_counterexample :
    relayOut [bytesOf "PO", bytesOf "ST /v1.40/images/create?fromImage=x HTTP/1.1\r\n"]
        (bytesOf "linux/arm64") ≠
      relayOut [bytesOf "POST /v1.40/images/create?fromImage=x HTTP/1.1\r\n"]
        (bytesOf "linux/arm64") := by
  decide

/-- C2 amended: a split inside the method token prevents the injection: the
split delivery is forwarded byte-for-byte unmodified (the first window
contains no marker and is forwarded at once), while the single-read delivery
is rewritten. -/
theorem claim2_split_prevents_injection :
    relayOut [bytesOf "PO", bytesOf "ST /v1.40/images/create?fromImage=x HTTP/1.1\r\n"]
        (bytesOf "linux/arm64") =
      bytesOf "POST /v1.40/images/create?fromImage=x HTTP/1.1\r\n" ∧
    relayOut [bytesOf "POST /v1.40/images/create?fromImage=x HTTP/1.1\r\n"]
        (bytesOf "linux/arm64") =
      bytesOf "POST /v1.40/images/create?fromImage=x&platform=linux%2Farm64 HTTP/1.1\r\n" := by
  exact ⟨by decide, by decide⟩

/-- C4 counterexample: the 19-byte window "POST /images/create" starts with
the method token, contains the path marker, has no line terminator and is
far below the 4096-byte buffer size, yet the cycle forwards the whole window
at once and retains nothing, contradicting the claimed retention. -/
theorem claim4_counterexample :
    bIndex (bytesOf "POST /images/create") postTok = some 0 ∧
    bContains (bytesOf "POST /images/create") createTok = true ∧
    bIndex (bytesOf "POST /images/create") [10] = none ∧
    (bytesOf "POST /images/create").length < 4096 ∧
    ¬((cycle (bytesOf "POST /images/create") (bytesOf "linux/arm64")).forward = [] ∧
      (cycle (bytesOf "POST /images/create") (bytesOf "linux/arm64")).leftover =
        bytesOf "POST /images/create") := by
  exact ⟨by decide, by decide, by decide, by decide, by decide⟩

/-- C4 amended: whenever the scan window starts with the method token,
contains the path marker and contains no line terminator, the relay logs a
warning and forwards the whole window verbatim in that same cycle, retaining
nothing — regardless of the window size (src/main.go:197-199). -/
theorem claim4_no_terminator_forwards_verbatim (w p : Bytes)
    (h0 : bIndex w postTok = some 0)
    (hc : bContains w createTok = true)
    (hn : bIndex w [10] = none) :
    cycle w p = { forward := w, leftover := [] } := by
  have hpost : bContains w postTok = true := by simp [bContains, h0]
  simp [cycle, hpost, hc, h0, hn]

/-- Witness for the C4 amended theorem at a concrete window. -/
theorem claim4_no_terminator_forwards_verbatim_witness :
    (bIndex (bytesOf "POST /v1.40/images/create?fromImage=x") postTok = some 0 ∧
      bContains (bytesOf "POST /v1.40/images/create?fromImage=x") createTok = true ∧
      bIndex (bytesOf "POST /v1.40/images/create?fromImage=x") [10] = none) ∧
    cycle (bytesOf "POST /v1.40/images/create?fromImage=x") (bytesOf "linux/arm64") =
      { forward := bytesOf "POST /v1.40/images/create?fromImage=x", leftover := [] } :=
  ⟨⟨by decide, by decide, by decide⟩,
    claim4_no_terminator_forwards_verbatim _ _ (by decide) (by decide) (by decide)⟩

/-- C7 counterexample: a first line with four space-separated tokens is not
forwarded unchanged: the rewriter folds the extra token into the version
part and performs the rewrite. -/
theorem claim7_counterexample :
    (((bytesOf "POST /x?a=b HTTP/1.1 junk").splitOn 32).filter (fun t => t != [])).length = 4 ∧
    injectPlatform (bytesOf "POST /x?a=b HTTP/1.1 junk") (bytesOf "linux/arm64") =
      some (bytesOf "POST /x?a=b&platform=linux%2Farm64 HTTP/1.1 junk") ∧
    bytesOf "POST /x?a=b&platform=linux%2Farm64 HTTP/1.1 junk" ≠
      bytesOf "POST /x?a=b HTTP/1.1 junk" := by
  exact ⟨by decide, by decide, by decide⟩

/-- C7 amended: the rewriter errors out (and the relay then forwards the
original bytes unchanged) exactly on lines that split into fewer than three
space-separated parts, i.e. lines containing fewer than two spaces; a line
with more than three whitespace tokens splits into three parts with the
extra tokens inside the version part and is rewritten normally. -/
theorem claim7_too_few_tokens_error (b p : Bytes)
    (h : (goSplitN b 32 3).length < 3) :
    injectPlatform b p = none := by
  rcases hs : goSplitN b 32 3 with _ | ⟨a, _ | ⟨a2, _ | ⟨a3, t⟩⟩⟩
  · simp [injectPlatform, hs]
  · simp [injectPlatform, hs]
  · simp [injectPlatform, hs]
  · rw [hs] at h
    simp at h
    omega

/-- Witness for the C7 amended theorem at a concrete two-token line. -/
theorem claim7_too_few_tokens_error_witness :
    (goSplitN (bytesOf "POST /images/create\r") 32 3).length < 3 ∧
    injectPlatform (bytesOf "POST /images/create\r") (bytesOf "linux/arm64") = none :=
  ⟨by decide, claim7_too_few_tokens_error _ _ (by decide)⟩

/-- C8 counterexample: when the dial of the docker socket fails, the Session
terminates without ever closing the accepted client connection
(src/main.go:143-147 logs and returns; no Close is issued). -/
theorem claim8_counterexample :
    SessionEvent.closeClient ∉ handleConnectionEvents false := by
  decide

/-- C8 amended: on dial failure the Session logs the error and terminates at
once — exactly one dial attempt, no retry — but it does not close the
accepted client connection. -/
theorem claim8_dial_failure_behaviour :
    handleConnectionEvents false = [SessionEvent.dialUpstream, SessionEvent.logError] ∧
    (handleConnectionEvents false).count SessionEvent.dialUpstream = 1 := by
  exact ⟨by decide, by decide⟩

/-- C3 counterexample: if each Write call accepts one byte without error,
sendAll on the two-byte chunk "AB" puts "AA" on the wire: the first byte is
sent twice and the second byte never, because the loop re-passes the whole
buffer instead of the unwritten remainder (src/main.go:131-137). -/
theorem claim3_counterexample :
    writeStream (fun _ => 1) (bytesOf "AB") 8 = bytesOf "AA" ∧
    (writeStream (fun _ => 1) (bytesOf "AB") 8).count 65 = 2 ∧
    (writeStream (fun _ => 1) (bytesOf "AB") 8).count 66 = 0 := by
  exact ⟨by decide, by decide, by decide⟩

/-- The write loop does nothing once the outstanding count is zero. -/
theorem writeLoop_done (accept : Nat → Nat) (buffer : Bytes) (f k : Nat) :
    writeLoop accept buffer f k 0 = [] := by
  cases f <;> simp [writeLoop]

/-- C3 amended: the write loop re-sends the whole chunk, not the remainder,
and decrements the outstanding count by the accepted size; bytes are
delivered exactly once only in the case the io.Writer contract guarantees
for net.Conn — every error-free Write accepts the entire chunk — in which
case the chunk is flushed exactly and before the next read. -/
theorem claim3_full_writes_exact (accept : Nat → Nat) (buffer : Bytes) (fuel : Nat)
    (hacc : ∀ k, buffer.length ≤ accept k) (hfuel : 1 ≤ fuel) :
    writeStream accept buffer fuel = buffer := by
  obtain ⟨f, rfl⟩ : ∃ f, fuel = f + 1 := ⟨fuel - 1, by omega⟩
  unfold writeStream writeLoop
  by_cases hb : buffer.length = 0
  · simp [hb, List.length_eq_zero.mp hb]
  · have hcond : ¬((buffer.length : Int) ≤ 0) := by omega
    rw [if_neg hcond]
    have hmin : min (accept 0) buffer.length = buffer.length :=
      Nat.min_eq_right (hacc 0)
    simp only [hmin, List.take_length]
    have : (buffer.length : Int) - (buffer.length : Nat) = 0 := by omega
    rw [this, writeLoop_done, List.append_nil]

/-- Witness for the C3 amended theorem: full acceptance delivers "AB" once. -/
theorem claim3_full_writes_exact_witness :
    writeStream (fun _ => 2) (bytesOf "AB") 8 = bytesOf "AB" :=
  claim3_full_writes_exact (fun _ => 2) (bytesOf "AB") 8 (fun _ => Nat.le.refl) (by decide)

/-- Auxiliary identity for C1: if no scan window arising from `reads` after
the given dirty bytes contains both markers, the relay's total output is the
dirty bytes followed by all read bytes, in order. -/
theorem relaySteps_no_marker (p : Bytes) (reads : List Bytes) (dirty : Bytes)
    (h : ∀ w ∈ relayWindowsAux p reads dirty,
      (bContains w postTok && bContains w createTok) = false) :
    (relaySteps p reads dirty).1 ++ (cycle (relaySteps p reads dirty).2 p).forward =
      dirty ++ reads.flatten := by
  induction reads generalizing dirty with
  | nil =>
    have hd := h dirty (by simp [relayWindowsAux])
    simp [relaySteps, cycle_no_marker dirty p hd]
  | cons r rs ih =>
    have hw := h (dirty ++ r) (by simp [relayWindowsAux])
    have hcyc := cycle_no_marker (dirty ++ r) p hw
    have htail : ∀ w ∈ relayWindowsAux p rs [],
        (bContains w postTok && bContains w createTok) = false := by
      intro w hwmem
      apply h
      simp [relayWindowsAux, hcyc]
      right
      exact hwmem
    have := ih [] htail
    simp [relaySteps, hcyc, List.flatten_cons]
    simp at this
    simp [this, List.append_assoc]

/-- C1: for every sequence of client-side reads in which no scan window
contains both the method token "POST" and the path marker "/images/create",
the bytes the client-to-upstream relay hands to the upstream connection are
exactly the concatenation of all bytes read, in read order, unmodified. -/
theorem claim1_passthrough (reads : List Bytes) (p : Bytes)
    (h : ∀ w ∈ relayWindows reads p,
      (bContains w postTok && bContains w createTok) = false) :
    relayOut reads p = reads.flatten := by
  have := relaySteps_no_marker p reads [] h
  simpa [relayOut] using this

/-- Witness for C1 on a concrete two-read stream with no marker. -/
theorem claim1_passthrough_witness :
    (∀ w ∈ relayWindows [bytesOf "GET /info HTTP/1.1\r\n", bytesOf "Host: x\r\n\r\n"]
        (bytesOf "linux/arm64"),
      (bContains w postTok && bContains w createTok) = false) ∧
    relayOut [bytesOf "GET /info HTTP/1.1\r\n", bytesOf "Host: x\r\n\r\n"]
        (bytesOf "linux/arm64") =
      [bytesOf "GET /info HTTP/1.1\r\n", bytesOf "Host: x\r\n\r\n"].flatten :=
  ⟨by decide, claim1_passthrough _ _ (by decide)⟩

/-- C9: whenever the rewriter returns an error on the first line of a window
that starts with the method token and has a line terminator, the relay
forwards the original window bytes unmodified, retains nothing, and the loop
continues on the same connection with the remaining reads unaffected
(src/main.go:211-214: the error is logged, cleared, and the unmodified
readBuf is sent). -/
theorem claim9_inject_error_fails_open (w p : Bytes) (rs : List Bytes) (j : Nat)
    (h0 : bIndex w postTok = some 0)
    (hc : bContains w createTok = true)
    (hj : bIndex w [10] = some j)
    (he : injectPlatform (w.take j) p = none) :
    cycle w p = { forward := w, leftover := [] } ∧
    relayOut (w :: rs) p = w ++ relayOut rs p := by
  have hpost : bContains w postTok = true := by simp [bContains, h0]
  have hcyc : cycle w p = { forward := w, leftover := [] } := by
    simp [cycle, hpost, hc, h0, hj, he]
  refine ⟨hcyc, ?_⟩
  simp [relayOut, relaySteps, hcyc, List.append_assoc]

/-- Witness for C9: a window whose first line has only two tokens makes
injectPlatform fail, and the window passes through unmodified. -/
theorem claim9_inject_error_fails_open_witness :
    cycle (bytesOf "POST /images/create\r\nNEXT") (bytesOf "linux/arm64") =
      { forward := bytesOf "POST /images/create\r\nNEXT", leftover := [] } ∧
    relayOut [bytesOf "POST /images/create\r\nNEXT", bytesOf "MORE"] (bytesOf "linux/arm64") =
      bytesOf "POST /images/create\r\nNEXT" ++ relayOut [bytesOf "MORE"] (bytesOf "linux/arm64") :=
  claim9_inject_error_fails_open _ _ [bytesOf "MORE"] 20
    (by decide) (by decide) (by decide) (by decide)

/-- C10: in every relay cycle, the forwarded bytes followed by the retained
leftover are exactly the window — except in the successful-rewrite case,
where the forwarded bytes are the rewritten first line and the leftover is
everything from the line terminator on.  No byte is dropped, reordered or
duplicated across the two outputs. -/
theorem claim10_cycle_conservation (w p : Bytes) :
    (cycle w p).forward ++ (cycle w p).leftover = w ∨
    (∃ j inj, bIndex w [10] = some j ∧ injectPlatform (w.take j) p = some inj ∧
      (cycle w p).forward = inj ∧ (cycle w p).leftover = w.drop j) := by
  by_cases hb : (bContains w postTok && bContains w createTok) = true
  · rcases hidx : bIndex w postTok with _ | i
    · left
      simp [cycle, hb, hidx]
    · cases i with
      | zero =>
        rcases hnl : bIndex w [10] with _ | j
        · left
          simp [cycle, hb, hidx, hnl]
        · rcases hinj : injectPlatform (w.take j) p with _ | inj
          · left
            simp [cycle, hb, hidx, hnl, hinj]
          · right
            refine ⟨j, inj, ?_, ?_, by simp [cycle, hb, hidx, hnl, hinj],
              by simp [cycle, hb, hidx, hnl, hinj]⟩
            · exact hnl ▸ rfl
            · exact hinj ▸ rfl
      | succ i =>
        left
        simp [cycle, hb, hidx]
  · left
    have hb' : (bContains w postTok && bContains w createTok) = false := by
      revert hb
      cases bContains w postTok && bContains w createTok <;> simp
    simp [cycle, hb']

/-- A hex digit byte is never '&' (38) or '=' (61). -/
theorem hexUpper_ne_sep (n : Nat) : hexUpper n ≠ 38 ∧ hexUpper n ≠ 61 := by
  unfold hexUpper
  split <;> constructor <;> omega

/-- QueryEscape output never contains a '&' (38) or '=' (61) byte: escaped
bytes become '%'-hex triples, space becomes '+', and a byte left alone is
one that shouldEscape keeps, which '&' and '=' are not. -/
theorem queryEscape_sep_free (s : Bytes) : ∀ c ∈ queryEscape s, c ≠ 38 ∧ c ≠ 61 := by
  intro c hc
  rw [queryEscape, escape, List.mem_flatMap] at hc
  obtain ⟨a, _, hca⟩ := hc
  by_cases h1 : (a == 32 && (Encoding.queryComponent == Encoding.queryComponent)) = true
  · rw [if_pos h1] at hca
    simp at hca
    subst hca
    exact ⟨by omega, by omega⟩
  · rw [if_neg h1] at hca
    by_cases h2 : shouldEscape a Encoding.queryComponent = true
    · rw [if_pos h2] at hca
      simp at hca
      rcases hca with rfl | rfl | rfl
      · exact ⟨by omega, by omega⟩
      · exact hexUpper_ne_sep _
      · exact hexUpper_ne_sep _
    · rw [if_neg h2] at hca
      simp at hca
      subst hca
      constructor
      · rintro rfl
        exact h2 (by decide)
      · rintro rfl
        exact h2 (by decide)

/-- If a byte string is free of '%' (37) and '+' (43), the only string that
QueryEscape maps onto it is the string itself: every escaped byte would put
a '%' in the output and every space a '+'. -/
theorem queryEscape_eq_self_of_free :
    ∀ (k s : Bytes), (∀ c ∈ s, c ≠ 37 ∧ c ≠ 43) → queryEscape k = s → k = s := by
  intro k
  induction k with
  | nil =>
    intro s _ h
    rw [queryEscape, escape] at h
    simpa using h
  | cons a t ih =>
    intro s hs h
    rw [queryEscape, escape, List.flatMap_cons] at h
    by_cases h1 : (a == 32 && (Encoding.queryComponent == Encoding.queryComponent)) = true
    · rw [if_pos h1] at h
      exfalso
      have hmem : (43 : Nat) ∈ s := by
        rw [← h]
        simp
      exact (hs 43 hmem).2 rfl
    · rw [if_neg h1] at h
      by_cases h2 : shouldEscape a Encoding.queryComponent = true
      · rw [if_pos h2] at h
        exfalso
        have hmem : (37 : Nat) ∈ s := by
          rw [← h]
          simp
        exact (hs 37 hmem).1 rfl
      · rw [if_neg h2] at h
        subst h
        have ht := ih (escape t Encoding.queryComponent)
          (fun c hc => hs c (List.mem_cons_of_mem a hc)) rfl
        exact congrArg (List.cons a) ht

/-- takeWhile up to the first '=' recovers the key part of an encoded pair. -/
theorem takeWhile_key_part (qk qv : Bytes) (h : ∀ c ∈ qk, c ≠ 61) :
    (qk ++ 61 :: qv).takeWhile (fun c => c != 61) = qk := by
  induction qk with
  | nil => simp [List.takeWhile]
  | cons a t ih =>
    have ha : (a != 61) = true := by
      simpa using h a (by simp)
    simp only [List.cons_append, List.takeWhile_cons, ha, if_true]
    rw [ih fun c hc => h c (List.mem_cons_of_mem a hc)]

/-- Values.Add appends a brand-new entry at the end when the key is absent. -/
theorem valuesAppend_absent (m : Values) (k v : Bytes)
    (h : ∀ e ∈ m, (e.1 == k) = false) :
    valuesAppend m k v = m ++ [(k, [v])] := by
  induction m with
  | nil => rfl
  | cons e rest ih =>
    have he := h e (by simp)
    simp only [valuesAppend, he, List.cons_append, if_false, Bool.false_eq_true]
    rw [ih fun e' h' => h e' (List.mem_cons_of_mem e h')]

/-- After Values.Del, no remaining entry carries the deleted key. -/
theorem valuesDel_absent (m : Values) (k : Bytes) :
    ∀ e ∈ valuesDel m k, (e.1 == k) = false := by
  intro e he
  rw [valuesDel] at he
  have h2 := (List.mem_filter.mp he).2
  simpa using h2

/-- find? over a map whose front entries all miss the key lands on the final
entry. -/
theorem find_append_last (m : Values) (k : Bytes) (vs : List Bytes)
    (h : ∀ e ∈ m, (e.1 == k) = false) :
    (m ++ [(k, vs)]).find? (fun e => e.1 == k) = some (k, vs) := by
  induction m with
  | nil => simp [List.find?]
  | cons e rest ih =>
    have he := h e (by simp)
    simp only [List.cons_append, List.find?, he]
    exact ih fun e' h' => h e' (List.mem_cons_of_mem e h')

/-- Lookup of the key stored in the final entry of a map whose front entries
all miss it. -/
theorem valuesGet_append_last (m : Values) (k : Bytes) (vs : List Bytes)
    (h : ∀ e ∈ m, (e.1 == k) = false) :
    valuesGet (m ++ [(k, vs)]) k = vs := by
  rw [valuesGet, find_append_last m k vs h]

/-- Inserting a key into a sorted key list adds exactly one occurrence of it. -/
theorem count_insortKey (k a : Bytes) (l : List Bytes) :
    (insortKey k l).count a = l.count a + if k = a then 1 else 0 := by
  induction l with
  | nil => simp [insortKey, List.count_cons]
  | cons x xs ih =>
    by_cases hlt : lexLt k x = true
    · simp only [insortKey, hlt, if_true, List.count_cons, beq_iff_eq]
    · simp only [insortKey, hlt, if_false, Bool.false_eq_true, List.count_cons, ih,
        beq_iff_eq]
      omega

/-- Sorting the keys preserves how often each key occurs. -/
theorem count_sortKeys (l : List Bytes) (a : Bytes) :
    (sortKeys l).count a = l.count a := by
  induction l with
  | nil => rfl
  | cons x xs ih =>
    simp only [sortKeys, List.foldr_cons] at *
    rw [count_insortKey, ih, List.count_cons]
    by_cases hx : x = a
    · simp [hx]
    · have : (x == a) = false := by simpa using hx
      simp [hx, this]

/-- A flatMap over a list holding exactly one occurrence of `a`, where every
other element contributes nothing, is just the contribution of `a`. -/
theorem flatMap_single {β : Type} (l : List Bytes) (f : Bytes → List β) (a : Bytes)
    (hcount : l.count a = 1) (hother : ∀ x ∈ l, x ≠ a → f x = []) :
    l.flatMap f = f a := by
  induction l with
  | nil => simp at hcount
  | cons x xs ih =>
    rcases eq_or_ne x a with rfl | hne
    · have h0 : xs.count x = 0 := by
        rw [List.count_cons] at hcount
        simp at hcount
        omega
      have hnil : xs.flatMap f = [] := by
        rw [List.flatMap_eq_nil_iff]
        intro y hy
        refine hother y (List.mem_cons_of_mem x hy) ?_
        rintro rfl
        exact List.not_mem_of_count_eq_zero h0 hy
      simp [List.flatMap_cons, hnil]
    · have hx : f x = [] := hother x (by simp) hne
      have hc : xs.count a = 1 := by
        rw [List.count_cons] at hcount
        have : (x == a) = false := by simpa using hne
        simpa [this] using hcount
      simp only [List.flatMap_cons, hx, List.nil_append]
      exact ih hc fun y hy => hother y (List.mem_cons_of_mem x hy)

/-- The '&'-separated components of an encoded query string whose key part
(the bytes before the first '=') is exactly "platform". -/
def platformPairs (enc : Bytes) : List Bytes :=
  (enc.splitOn 38).filter fun piece => piece.takeWhile (fun c => c != 61) == platformKey

/-- C6: for every request line that splits into three parts and whose target
URL and query string parse successfully, if the query already contains one
or more platform parameters then the rewritten line carries exactly one
platform key, holding (the query-escaped form of) the configured platform
value: all pre-existing platform values are removed, none is duplicated. -/
theorem claim6_single_platform_key (b p m raw ver : Bytes) (u : GoURL) (q : Values)
    (hsplit : goSplitN b 32 3 = [m, raw, ver])
    (hurl : urlParse raw = some u)
    (hq : parseQueryFull u.rawQuery = (q, false))
    (hplat : valuesHas q platformKey = true) :
    injectPlatform b p =
      some (bJoin [m, urlString { u with rawQuery := valuesEncode (valuesAppend (valuesDel q platformKey) platformKey p) }, ver] [32]) ∧
    platformPairs (valuesEncode (valuesAppend (valuesDel q platformKey) platformKey p)) =
      [platformKey ++ 61 :: queryEscape p] := by
  have habs := valuesDel_absent q platformKey
  have hq' : valuesAppend (valuesDel q platformKey) platformKey p =
      valuesDel q platformKey ++ [(platformKey, [p])] :=
    valuesAppend_absent _ _ _ habs
  constructor
  · simp [injectPlatform, hsplit, hurl, hq, hplat]
  · have hget : valuesGet (valuesAppend (valuesDel q platformKey) platformKey p)
        platformKey = [p] := by
      rw [hq']
      exact valuesGet_append_last _ _ _ habs
    have hpiece38 : ∀ piece ∈ encodePieces (valuesAppend (valuesDel q platformKey)
        platformKey p), (38 : Nat) ∉ piece := by
      intro piece hmem
      rw [encodePieces, List.mem_flatMap] at hmem
      obtain ⟨k, _, hpk⟩ := hmem
      rw [List.mem_map] at hpk
      obtain ⟨v, _, rfl⟩ := hpk
      intro hmem38
      rcases List.mem_append.mp hmem38 with h | h
      · exact (queryEscape_sep_free k 38 h).1 rfl
      · rcases List.mem_cons.mp h with h61 | h
        · omega
        · exact (queryEscape_sep_free v 38 h).1 rfl
    have hcount : (sortKeys ((valuesAppend (valuesDel q platformKey) platformKey p).map
        fun e => e.1)).count platformKey = 1 := by
      rw [count_sortKeys, hq', List.map_append, List.count_append]
      have h0 : ((valuesDel q platformKey).map fun e => e.1).count platformKey = 0 := by
        rw [List.count_eq_zero]
        intro hmem
        rw [List.mem_map] at hmem
        obtain ⟨e, he, hfst⟩ := hmem
        have hne := habs e he
        rw [hfst] at hne
        simp at hne
      rw [h0]
      simp [List.count_cons]
    have hsortmem : platformKey ∈ sortKeys ((valuesAppend (valuesDel q platformKey)
        platformKey p).map fun e => e.1) := by
      refine List.count_pos_iff.mp ?_
      omega
    have hgpk : (valuesGet (valuesAppend (valuesDel q platformKey) platformKey p)
          platformKey).map
        (fun v => queryEscape platformKey ++ 61 :: queryEscape v) =
        [platformKey ++ 61 :: queryEscape p] := by
      rw [hget]
      have hesc : queryEscape platformKey = platformKey := by decide
      simp [hesc]
    have hpieces_ne : encodePieces (valuesAppend (valuesDel q platformKey)
        platformKey p) ≠ [] := by
      intro hnil
      rw [encodePieces, List.flatMap_eq_nil_iff] at hnil
      have hx := hnil platformKey hsortmem
      rw [hgpk] at hx
      exact List.cons_ne_nil _ _ hx
    have hsplit38 : (valuesEncode (valuesAppend (valuesDel q platformKey)
          platformKey p)).splitOn 38 =
        encodePieces (valuesAppend (valuesDel q platformKey) platformKey p) := by
      rw [valuesEncode]
      exact List.splitOn_intercalate _ 38 hpiece38 hpieces_ne
    rw [platformPairs, hsplit38, encodePieces, List.filter_flatMap]
    have hother : ∀ k ∈ sortKeys ((valuesAppend (valuesDel q platformKey)
        platformKey p).map fun e => e.1), k ≠ platformKey →
        (((valuesGet (valuesAppend (valuesDel q platformKey) platformKey p) k).map
            fun v => queryEscape k ++ 61 :: queryEscape v).filter
          fun piece => piece.takeWhile (fun c => c != 61) == platformKey) = [] := by
      intro k _ hne
      rw [List.filter_eq_nil_iff]
      intro piece hpiece
      rw [List.mem_map] at hpiece
      obtain ⟨v, _, rfl⟩ := hpiece
      intro hpr
      rw [takeWhile_key_part _ _ (fun c hc => (queryEscape_sep_free k c hc).2)] at hpr
      have heq : queryEscape k = platformKey := by simpa using hpr
      exact hne (queryEscape_eq_self_of_free k platformKey (by decide) heq)
    rw [flatMap_single _ _ platformKey hcount hother, hgpk]
    have hkey : (platformKey ++ 61 :: queryEscape p).takeWhile (fun c => c != 61) =
        platformKey :=
      takeWhile_key_part _ _ (by decide)
    simp [List.filter, hkey]

/-- Witness for C6 on a line whose query holds two platform parameters. -/
theorem claim6_single_platform_key_witness :
    injectPlatform (bytesOf "POST /v1.40/images/create?platform=foo&platform=bar&fromImage=x HTTP/1.1") (bytesOf "linux/arm64") =
      some (bJoin [bytesOf "POST", urlString { emptyURL with path := bytesOf "/v1.40/images/create", rawQuery := valuesEncode (valuesAppend (valuesDel [(platformKey, [bytesOf "foo", bytesOf "bar"]), (bytesOf "fromImage", [bytesOf "x"])] platformKey) platformKey (bytesOf "linux/arm64")) }, bytesOf "HTTP/1.1"] [32]) ∧
    platformPairs (valuesEncode (valuesAppend (valuesDel [(platformKey, [bytesOf "foo", bytesOf "bar"]), (bytesOf "fromImage", [bytesOf "x"])] platformKey) platformKey (bytesOf "linux/arm64"))) =
      [platformKey ++ 61 :: queryEscape (bytesOf "linux/arm64")] :=
  claim6_single_platform_key
    (bytesOf "POST /v1.40/images/create?platform=foo&platform=bar&fromImage=x HTTP/1.1")
    (bytesOf "linux/arm64")
    (bytesOf "POST")
    (bytesOf "/v1.40/images/create?platform=foo&platform=bar&fromImage=x")
    (bytesOf "HTTP/1.1")
    { emptyURL with path := bytesOf "/v1.40/images/create",
                    rawQuery := bytesOf "platform=foo&platform=bar&fromImage=x" }
    [(platformKey, [bytesOf "foo", bytesOf "bar"]), (bytesOf "fromImage", [bytesOf "x"])]
    (by decide) (by decide) (by decide) (by decide)
